import Mathlib

/-!
Shallow embedding of the `ArtAuction_Z` Solidity contract.

The contract runs sealed-bid auctions over FHE-encrypted bids:
`createAuction`, `placeBid`, `decryptBid` (the reveal step) and
`finalizeAuction`, plus the read-only getters.  Addresses and ciphertext
handles are modelled as `Nat` (`0` is `address(0)` and the uninitialized
`euint32(0)` handle), timestamps as `Nat`, auction identifiers as `String`.
Solidity mappings are total functions with the default value, exactly as on
chain.  The external FHE primitives (`FHE.fromExternal`,
`FHE.checkSignatures`, `abi.decode` into `uint32`) are an injected record of
opaque functions; `FHE.isInitialized h` is `h ≠ 0`.  Every `require` failure
becomes an explicit error of the taxonomy, and a failing call returns the
error with no state (atomic abort).
-/

namespace ArtAuction

/-- One stored bid: bidder address, ciphertext handle, submission timestamp,
decrypted flag and revealed plaintext amount.  Mirrors `struct Bid`. -/
structure Bid where
  bidder : Nat
  encryptedBidAmount : Nat
  timestamp : Nat
  isDecrypted : Bool
  decryptedBidAmount : Nat
deriving Repr, DecidableEq

/-- The mapping default value for `Bid` (all fields zero / false). -/
def defaultBid : Bid :=
  { bidder := 0, encryptedBidAmount := 0, timestamp := 0
    isDecrypted := false, decryptedBidAmount := 0 }

/-- One auction: token id, time window, running highest (bidder, amount),
active flag, per-bidder bid mapping and the bidder enumeration list.
Mirrors `struct Auction`. -/
structure Auction where
  nftTokenId : String
  startTime : Nat
  endTime : Nat
  highestBidder : Nat
  highestBidAmount : Nat
  isActive : Bool
  bids : Nat → Bid
  bidders : List Nat

/-- The mapping default value for `Auction`. -/
def defaultAuction : Auction :=
  { nftTokenId := "", startTime := 0, endTime := 0, highestBidder := 0
    highestBidAmount := 0, isActive := false
    bids := fun _ => defaultBid, bidders := [] }

/-- Contract storage: the `auctions` mapping and the `auctionIds` array. -/
structure State where
  auctions : String → Auction
  auctionIds : List String

/-- Freshly deployed contract: every mapping slot holds its default. -/
def initState : State := { auctions := fun _ => defaultAuction, auctionIds := [] }

/-- Error taxonomy: one constructor per distinct `require` message plus the
revert of `FHE.checkSignatures`. -/
inductive Err where
  | AlreadyExists
  | NotFound
  | InvalidTimeWindow
  | InactiveWindow
  | InvalidCiphertext
  | DuplicateBid
  | AuctionNotEnded
  | AlreadyDecrypted
  | InvalidProof
  | AlreadyFinalized
  | NoValidBids
deriving Repr, DecidableEq

/-- The external FHE engine consumed by the contract: `fromExternal` turns an
external ciphertext plus input proof into a handle, `checkSig` models
`FHE.checkSignatures` on a single handle (true = proof accepted), and
`decodeU32` models `abi.decode(bytes, (uint32))` of the clear value. -/
structure Fhe where
  fromExternal : Nat → Nat → Nat
  checkSig : Nat → Nat → Nat → Bool
  decodeU32 : Nat → Nat

/-- `FHE.isInitialized`: a handle is initialized iff it is nonzero. -/
def isInitializedH (h : Nat) : Bool := h != 0

/-- Point update of the `auctions` mapping. -/
def setAuction (s : State) (aid : String) (a : Auction) : State :=
  { s with auctions := fun k => if k = aid then a else s.auctions k }

/-- Point update of an auction's `bids` mapping. -/
def setBid (a : Auction) (who : Nat) (b : Bid) : Auction :=
  { a with bids := fun k => if k = who then b else a.bids k }

/-- The contract's existence test `bytes(auctions[id].nftTokenId).length > 0`. -/
def auctionExists (s : State) (aid : String) : Bool :=
  (s.auctions aid).nftTokenId.length != 0

/-- `createAuction(auctionId, nftTokenId, startTime, endTime)`: requires the
id unused, `startTime >= block.timestamp`, `endTime > startTime`; stores a
fresh auction and appends the id to `auctionIds`. -/
def createAuction (now : Nat) (s : State) (aid nft : String) (st et : Nat) :
    Except Err State :=
  if auctionExists s aid then .error .AlreadyExists
  else if st < now then .error .InvalidTimeWindow
  else if et ≤ st then .error .InvalidTimeWindow
  else
    let a : Auction :=
      { nftTokenId := nft, startTime := st, endTime := et, highestBidder := 0
        highestBidAmount := 0, isActive := true
        bids := fun _ => defaultBid, bidders := [] }
    .ok { setAuction s aid a with auctionIds := s.auctionIds ++ [aid] }

/-- `placeBid(auctionId, encryptedBidAmount, inputProof)`: the
`auctionOngoing` modifier (existence, `startTime ≤ now ≤ endTime`,
`isActive`), then `FHE.isInitialized(FHE.fromExternal(...))`, then the
duplicate check `bids[msg.sender].encryptedBidAmount == euint32(0)`; on
success stores the bid and pushes the sender onto `bidders`. -/
def placeBid (fhe : Fhe) (now sender : Nat) (s : State) (aid : String)
    (ext proof : Nat) : Except Err State :=
  if auctionExists s aid then
    if (s.auctions aid).startTime ≤ now ∧ now ≤ (s.auctions aid).endTime then
      if (s.auctions aid).isActive then
        if isInitializedH (fhe.fromExternal ext proof) then
          let a := s.auctions aid
          if (a.bids sender).encryptedBidAmount = 0 then
            let enc := fhe.fromExternal ext proof
            let b : Bid :=
              { bidder := sender, encryptedBidAmount := enc, timestamp := now
                isDecrypted := false, decryptedBidAmount := 0 }
            let a' := { setBid a sender b with bidders := a.bidders ++ [sender] }
            .ok (setAuction s aid a')
          else .error .DuplicateBid
        else .error .InvalidCiphertext
      else .error .InactiveWindow
    else .error .InactiveWindow
  else .error .NotFound

/-- `decryptBid(auctionId, abiEncodedClearValue, decryptionProof)`: requires
the auction to exist and `block.timestamp > endTime`, the caller's bid not
yet decrypted, and `FHE.checkSignatures` to accept; then records the decoded
`uint32` on the bid and applies the strict `>` highest-bid update.  There is
no check that the caller ever placed a bid. -/
def decryptBid (fhe : Fhe) (now sender : Nat) (s : State) (aid : String)
    (clear proof : Nat) : Except Err State :=
  if auctionExists s aid then
    if (s.auctions aid).endTime < now then
      let a := s.auctions aid
      let bid := a.bids sender
      if bid.isDecrypted then .error .AlreadyDecrypted
      else if fhe.checkSig bid.encryptedBidAmount clear proof then
        let v := fhe.decodeU32 clear % 4294967296
        let a1 := setBid a sender
          { bid with isDecrypted := true, decryptedBidAmount := v }
        let a2 :=
          if a1.highestBidAmount < v then
            { a1 with highestBidAmount := v, highestBidder := sender }
          else a1
        .ok (setAuction s aid a2)
      else .error .InvalidProof
    else .error .AuctionNotEnded
  else .error .NotFound

/-- `finalizeAuction(auctionId)`: requires existence, `block.timestamp >
endTime`, `isActive` (else already finalized), and a nonzero
`highestBidder`; on success clears `isActive`. -/
def finalizeAuction (now : Nat) (s : State) (aid : String) : Except Err State :=
  if auctionExists s aid then
    if (s.auctions aid).endTime < now then
      if (s.auctions aid).isActive then
        if (s.auctions aid).highestBidder = 0 then .error .NoValidBids
        else .ok (setAuction s aid { s.auctions aid with isActive := false })
      else .error .AlreadyFinalized
    else .error .AuctionNotEnded
  else .error .NotFound

/-- `getAuctionDetails`: requires existence and returns the scalar fields. -/
def getAuctionDetails (s : State) (aid : String) :
    Except Err (String × Nat × Nat × Nat × Nat × Bool) :=
  if auctionExists s aid then
    let a := s.auctions aid
    .ok (a.nftTokenId, a.startTime, a.endTime, a.highestBidder,
         a.highestBidAmount, a.isActive)
  else .error .NotFound

/-- `getBid`: requires the auction to exist and returns the (possibly
default) bid record of the given bidder — no bidder check. -/
def getBid (s : State) (aid : String) (bidder : Nat) :
    Except Err (Nat × Nat × Bool × Nat) :=
  if auctionExists s aid then
    let b := (s.auctions aid).bids bidder
    .ok (b.encryptedBidAmount, b.timestamp, b.isDecrypted, b.decryptedBidAmount)
  else .error .NotFound

/-- `getAllAuctionIds`: unconditionally returns the id list. -/
def getAllAuctionIds (s : State) : Except Err (List String) := .ok s.auctionIds

/-- `getAllBidders`: requires the auction to exist, returns its bidder list. -/
def getAllBidders (s : State) (aid : String) : Except Err (List Nat) :=
  if auctionExists s aid then .ok (s.auctions aid).bidders
  else .error .NotFound

/-- Result of a mutating call: the new state on success, the old state on a
revert (atomic abort). -/
def afterOp (r : Except Err State) (s : State) : State :=
  match r with
  | .ok s' => s'
  | .error _ => s

/-- `Except.isOk` as a plain boolean on contract-call results. -/
def okB {α : Type} : Except Err α → Bool
  | .ok _ => true
  | .error _ => false

/-- The (highestBidder, highestBidAmount) pair of one auction. -/
def hiPair (s : State) (aid : String) : Nat × Nat :=
  ((s.auctions aid).highestBidder, (s.auctions aid).highestBidAmount)

/-- One step of the highest-bid tracker, exactly the lines
`if (decryptedBidAmount > auction.highestBidAmount) { ... }`. -/
def trackStep (p : Nat × Nat) (q : Nat × Nat) : Nat × Nat :=
  if p.2 < q.2 then q else p

/-- Folding the tracker over a sequence of (bidder, amount) reveals. -/
def trackFold (p : Nat × Nat) (ps : List (Nat × Nat)) : Nat × Nat :=
  ps.foldl trackStep p

/-- Maximum amount of a reveal sequence (0 for the empty sequence). -/
def maxAmt : List (Nat × Nat) → Nat
  | [] => 0
  | q :: rest => max q.2 (maxAmt rest)

/-- The bidder of the earliest reveal whose amount equals `m`. -/
def firstWith (m : Nat) : List (Nat × Nat) → Option Nat
  | [] => none
  | q :: rest => if q.2 = m then some q.1 else firstWith m rest

/-- One `decryptBid` call: its block timestamp, caller, clear value bytes and
decryption proof. -/
structure RevealCall where
  now : Nat
  sender : Nat
  clear : Nat
  proof : Nat

/-- Apply a sequence of `decryptBid` calls to one auction, stopping at the
first revert. -/
def applyReveals (fhe : Fhe) (aid : String) : List RevealCall → State → Except Err State
  | [], s => .ok s
  | c :: rest, s =>
    match decryptBid fhe c.now c.sender s aid c.clear c.proof with
    | .ok s' => applyReveals fhe aid rest s'
    | .error e => .error e

/-- The (bidder, decoded amount) pairs a reveal sequence feeds the tracker. -/
def revealPairs (fhe : Fhe) (calls : List RevealCall) : List (Nat × Nat) :=
  calls.map (fun c => (c.sender, fhe.decodeU32 c.clear % 4294967296))

/-- One external transaction against the contract. -/
inductive Op where
  | create (now : Nat) (aid nft : String) (st et : Nat)
  | place (now sender : Nat) (aid : String) (ext proof : Nat)
  | reveal (now sender : Nat) (aid : String) (clear proof : Nat)
  | finalize (now : Nat) (aid : String)

/-- Apply one transaction; a reverting transaction leaves the state as is. -/
def applyOp (fhe : Fhe) (s : State) : Op → State
  | .create now aid nft st et => afterOp (createAuction now s aid nft st et) s
  | .place now sender aid ext proof => afterOp (placeBid fhe now sender s aid ext proof) s
  | .reveal now sender aid clear proof => afterOp (decryptBid fhe now sender s aid clear proof) s
  | .finalize now aid => afterOp (finalizeAuction now s aid) s

/-- Run a transaction sequence from a state. -/
def exec (fhe : Fhe) (s : State) : List Op → State
  | [] => s
  | op :: rest => exec fhe (applyOp fhe s op) rest

/-- Whether a transaction is a reveal (`decryptBid`) on the given auction. -/
def isRevealOn : Op → String → Bool
  | .reveal _ _ aid' _ _, aid => aid' == aid
  | _, _ => false

/-- The callers of the successful `placeBid` transactions on one auction, in
execution order (the trace-level bid-placement order). -/
def placers (fhe : Fhe) : State → List Op → String → List Nat
  | _, [], _ => []
  | s, op :: rest, aid =>
    (match op with
     | .place now sender aid' ext proof =>
       if aid' = aid ∧ okB (placeBid fhe now sender s aid' ext proof) then
         [sender]
       else []
     | _ => []) ++ placers fhe (applyOp fhe s op) rest aid

/-- State invariant tying the bidder list to the bid mapping: auctions that
do not exist are pristine, bidder lists have no duplicates, and membership
in `bidders` coincides with a nonzero stored ciphertext handle. -/
def GoodS (s : State) : Prop :=
  ∀ aid : String,
    ((s.auctions aid).nftTokenId.length = 0 →
      (s.auctions aid).bidders = [] ∧
      (s.auctions aid).highestBidder = 0 ∧
      (s.auctions aid).highestBidAmount = 0 ∧
      ∀ a : Nat, (s.auctions aid).bids a = defaultBid) ∧
    (s.auctions aid).bidders.Nodup ∧
    (∀ a : Nat, a ∈ (s.auctions aid).bidders ↔
      ((s.auctions aid).bids a).encryptedBidAmount ≠ 0)

/-- Test FHE engine: the external value is its own handle, every decryption
proof is accepted, and the clear bytes decode to themselves. -/
def fheT : Fhe :=
  { fromExternal := fun e _ => e
    checkSig := fun _ _ _ => true
    decodeU32 := fun c => c }

/-- Test FHE engine that rejects every decryption proof. -/
def fheNo : Fhe :=
  { fromExternal := fun e _ => e
    checkSig := fun _ _ _ => false
    decodeU32 := fun c => c }

/-- Test auction "A": window [1,10], no reveals yet, bidder 1 holds an
unrevealed bid with ciphertext handle 9. -/
def aA : Auction :=
  { nftTokenId := "N", startTime := 1, endTime := 10, highestBidder := 0
    highestBidAmount := 0, isActive := true
    bids := fun k => if k = 1 then
        { bidder := 1, encryptedBidAmount := 9, timestamp := 2
          isDecrypted := false, decryptedBidAmount := 0 }
      else defaultBid
    bidders := [1] }

/-- Test state holding only auction "A". -/
def sA : State :=
  { auctions := fun k => if k = "A" then aA else defaultAuction
    auctionIds := ["A"] }

/-- Test auction "F": already finalized at highest bid (bidder 1, 50);
bidder 2 still holds an unrevealed bid with handle 9. -/
def aF : Auction :=
  { nftTokenId := "N", startTime := 1, endTime := 10, highestBidder := 1
    highestBidAmount := 50, isActive := false
    bids := fun k =>
      if k = 1 then
        { bidder := 1, encryptedBidAmount := 7, timestamp := 2
          isDecrypted := true, decryptedBidAmount := 50 }
      else if k = 2 then
        { bidder := 2, encryptedBidAmount := 9, timestamp := 3
          isDecrypted := false, decryptedBidAmount := 0 }
      else defaultBid
    bidders := [1, 2] }

/-- Test state holding only the finalized auction "F". -/
def sF : State :=
  { auctions := fun k => if k = "F" then aF else defaultAuction
    auctionIds := ["F"] }

/-- Test auction "R": ended window [1,10], bidder 1 already revealed 50,
still active — ready to be finalized. -/
def aR : Auction :=
  { nftTokenId := "N", startTime := 1, endTime := 10, highestBidder := 1
    highestBidAmount := 50, isActive := true
    bids := fun k =>
      if k = 1 then
        { bidder := 1, encryptedBidAmount := 7, timestamp := 2
          isDecrypted := true, decryptedBidAmount := 50 }
      else defaultBid
    bidders := [1] }

/-- Test state holding only the finalization-ready auction "R". -/
def sR : State :=
  { auctions := fun k => if k = "R" then aR else defaultAuction
    auctionIds := ["R"] }

/-- Reveal sequence for the tracker round trip: bidder 1 reveals amount 5. -/
def callsW : List RevealCall := [{ now := 11, sender := 1, clear := 5, proof := 0 }]

/-- State after running `callsW` against auction "A". -/
def sC1w : State := afterOp (applyReveals fheT "A" callsW sA) sA

/-- Reveal sequence where bidder 1 reveals amount 0. -/
def callsZ : List RevealCall := [{ now := 11, sender := 1, clear := 0, proof := 0 }]

/-- State after running `callsZ` against auction "A". -/
def sC1z : State := afterOp (applyReveals fheT "A" callsZ sA) sA

/-- Transaction sequence: create auction "A" with window [1,10], then bidder
1 places a bid at time 5 with external ciphertext 9. -/
def ops0 : List Op := [Op.create 0 "A" "N" 1 10, Op.place 5 1 "A" 9 0]

/-! Basic lemmas about the storage updates. -/

theorem setAuction_same (s : State) (aid : String) (a : Auction) :
    (setAuction s aid a).auctions aid = a := by
  simp [setAuction]

theorem setAuction_other (s : State) (aid aid2 : String) (a : Auction)
    (h : aid2 ≠ aid) : (setAuction s aid a).auctions aid2 = s.auctions aid2 := by
  simp [setAuction, h]

/-! Success-shape lemmas: what a non-reverting call did, read off the code. -/

theorem create_ok (now : Nat) (s : State) (aid nft : String) (st et : Nat)
    (s' : State) (h : createAuction now s aid nft st et = .ok s') :
    auctionExists s aid = false ∧ now ≤ st ∧ st < et ∧
    s' = { setAuction s aid
            { nftTokenId := nft, startTime := st, endTime := et,
              highestBidder := 0, highestBidAmount := 0, isActive := true,
              bids := fun _ => defaultBid, bidders := [] }
           with auctionIds := s.auctionIds ++ [aid] } := by
  simp only [createAuction] at h
  split at h
  · exact absurd h (by simp)
  next hex =>
    split at h
    · exact absurd h (by simp)
    next hst =>
      split at h
      · exact absurd h (by simp)
      next het =>
        injection h with h'
        exact ⟨by simpa using hex, by omega, by omega, h'.symm⟩

theorem finalize_ok (now : Nat) (s : State) (aid : String) (s' : State)
    (h : finalizeAuction now s aid = .ok s') :
    auctionExists s aid = true ∧ (s.auctions aid).endTime < now ∧
    (s.auctions aid).isActive = true ∧ (s.auctions aid).highestBidder ≠ 0 ∧
    s' = setAuction s aid { s.auctions aid with isActive := false } := by
  simp only [finalizeAuction] at h
  split at h
  next hex =>
    split at h
    next hend =>
      split at h
      next hact =>
        split at h
        · exact absurd h (by simp)
        next hhb =>
          injection h with h'
          exact ⟨hex, hend, hact, hhb, h'.symm⟩
      · exact absurd h (by simp)
    · exact absurd h (by simp)
  · exact absurd h (by simp)

theorem place_ok (fhe : Fhe) (now sender : Nat) (s : State) (aid : String)
    (ext proof : Nat) (s' : State)
    (h : placeBid fhe now sender s aid ext proof = .ok s') :
    auctionExists s aid = true ∧
    (s.auctions aid).startTime ≤ now ∧ now ≤ (s.auctions aid).endTime ∧
    (s.auctions aid).isActive = true ∧
    fhe.fromExternal ext proof ≠ 0 ∧
    ((s.auctions aid).bids sender).encryptedBidAmount = 0 ∧
    s' = setAuction s aid
      { setBid (s.auctions aid) sender
          { bidder := sender, encryptedBidAmount := fhe.fromExternal ext proof,
            timestamp := now, isDecrypted := false, decryptedBidAmount := 0 }
        with bidders := (s.auctions aid).bidders ++ [sender] } := by
  simp only [placeBid] at h
  split at h
  next hex =>
    split at h
    next hwin =>
      split at h
      next hact =>
        split at h
        next hinit =>
          split at h
          next hdup =>
            injection h with h'
            refine ⟨hex, hwin.1, hwin.2, hact, ?_, hdup, h'.symm⟩
            simpa [isInitializedH] using hinit
          · exact absurd h (by simp)
        · exact absurd h (by simp)
      · exact absurd h (by simp)
    · exact absurd h (by simp)
  · exact absurd h (by simp)

theorem decrypt_ok (fhe : Fhe) (now sender : Nat) (s : State) (aid : String)
    (clear proof : Nat) (s' : State)
    (h : decryptBid fhe now sender s aid clear proof = .ok s') :
    auctionExists s aid = true ∧
    (s.auctions aid).endTime < now ∧
    ((s.auctions aid).bids sender).isDecrypted = false ∧
    fhe.checkSig ((s.auctions aid).bids sender).encryptedBidAmount clear proof = true ∧
    s'.auctionIds = s.auctionIds ∧
    (∀ aid2 : String, aid2 ≠ aid → s'.auctions aid2 = s.auctions aid2) ∧
    (s'.auctions aid).nftTokenId = (s.auctions aid).nftTokenId ∧
    (s'.auctions aid).startTime = (s.auctions aid).startTime ∧
    (s'.auctions aid).endTime = (s.auctions aid).endTime ∧
    (s'.auctions aid).isActive = (s.auctions aid).isActive ∧
    (s'.auctions aid).bidders = (s.auctions aid).bidders ∧
    (s'.auctions aid).bids sender =
      { (s.auctions aid).bids sender with
        isDecrypted := true,
        decryptedBidAmount := fhe.decodeU32 clear % 4294967296 } ∧
    (∀ b : Nat, b ≠ sender → (s'.auctions aid).bids b = (s.auctions aid).bids b) ∧
    hiPair s' aid = trackStep (hiPair s aid)
      (sender, fhe.decodeU32 clear % 4294967296) := by
  simp only [decryptBid] at h
  split at h
  next hex =>
    split at h
    next hend =>
      split at h
      · exact absurd h (by simp)
      next hdec =>
        split at h
        next hsig =>
          injection h with h'
          subst h'
          simp only [Bool.not_eq_true] at hdec
          refine ⟨hex, hend, hdec, hsig, rfl, ?_, ?_, ?_, ?_, ?_, ?_, ?_, ?_, ?_⟩
          · intro aid2 hne
            exact setAuction_other s aid aid2 _ hne
          all_goals
            by_cases hv : (s.auctions aid).highestBidAmount <
                fhe.decodeU32 clear % 4294967296 <;>
              simp [setAuction, setBid, hiPair, trackStep, hv]
          · intro b hb
            simp [hb]
          · intro b hb
            simp [hb]
        · exact absurd h (by simp)
    · exact absurd h (by simp)
  · exact absurd h (by simp)

/-! Pure lemmas about the highest-bid tracker fold. -/

theorem trackStep_snd (p q : Nat × Nat) : (trackStep p q).2 = max p.2 q.2 := by
  by_cases h : p.2 < q.2
  · simp [trackStep, h, max_eq_right (Nat.le_of_lt h)]
  · simp [trackStep, h, max_eq_left (Nat.le_of_not_lt h)]

theorem trackFold_amount (ps : List (Nat × Nat)) :
    ∀ p : Nat × Nat, (trackFold p ps).2 = max p.2 (maxAmt ps) := by
  induction ps with
  | nil => intro p; simp [trackFold, maxAmt]
  | cons q rest ih =>
    intro p
    have h1 : trackFold p (q :: rest) = trackFold (trackStep p q) rest := rfl
    rw [h1, ih, trackStep_snd]
    simp only [maxAmt]
    exact max_assoc p.2 q.2 (maxAmt rest)

theorem trackFold_const (ps : List (Nat × Nat)) :
    ∀ p : Nat × Nat, maxAmt ps ≤ p.2 → trackFold p ps = p := by
  induction ps with
  | nil => intro p _; rfl
  | cons q rest ih =>
    intro p h
    simp only [maxAmt, max_le_iff] at h
    have hs : trackStep p q = p := by
      have : ¬ p.2 < q.2 := by omega
      simp [trackStep, this]
    show trackFold (trackStep p q) rest = p
    rw [hs]
    exact ih p h.2

theorem trackFold_first (ps : List (Nat × Nat)) :
    ∀ p : Nat × Nat, p.2 < maxAmt ps →
      firstWith (maxAmt ps) ps = some (trackFold p ps).1 := by
  induction ps with
  | nil => intro p h; simp [maxAmt] at h
  | cons q rest ih =>
    intro p h
    have hcons : trackFold p (q :: rest) = trackFold (trackStep p q) rest := rfl
    by_cases hq : p.2 < q.2
    · have hstep : trackStep p q = q := by simp [trackStep, hq]
      by_cases hr : q.2 < maxAmt rest
      · have hM : maxAmt (q :: rest) = maxAmt rest := by
          simp only [maxAmt]
          exact max_eq_right (Nat.le_of_lt hr)
        rw [hcons, hstep, hM]
        simp only [firstWith]
        rw [if_neg (Nat.ne_of_lt hr)]
        exact ih q hr
      · have hr' : maxAmt rest ≤ q.2 := Nat.le_of_not_lt hr
        have hM : maxAmt (q :: rest) = q.2 := by
          simp only [maxAmt]
          exact max_eq_left hr'
        rw [hcons, hstep, hM, trackFold_const rest q hr']
        simp [firstWith]
    · have hq' : q.2 ≤ p.2 := Nat.le_of_not_lt hq
      have hstep : trackStep p q = p := by simp [trackStep, hq]
      have hr : p.2 < maxAmt rest := by
        simp only [maxAmt] at h
        rcases Nat.lt_or_ge p.2 (maxAmt rest) with h2 | h2
        · exact h2
        · exact absurd h (Nat.not_lt.mpr (max_le hq' h2))
      have hM : maxAmt (q :: rest) = maxAmt rest := by
        simp only [maxAmt]
        exact max_eq_right (le_trans hq' (Nat.le_of_lt hr))
      rw [hcons, hstep, hM]
      simp only [firstWith]
      rw [if_neg (by omega : q.2 ≠ maxAmt rest)]
      exact ih p hr

theorem applyReveals_pair (fhe : Fhe) (aid : String) (calls : List RevealCall) :
    ∀ s s' : State, applyReveals fhe aid calls s = .ok s' →
      hiPair s' aid = trackFold (hiPair s aid) (revealPairs fhe calls) := by
  induction calls with
  | nil =>
    intro s s' h
    simp only [applyReveals] at h
    injection h with h'
    subst h'
    rfl
  | cons c rest ih =>
    intro s s' h
    simp only [applyReveals] at h
    cases hc : decryptBid fhe c.now c.sender s aid c.clear c.proof with
    | error e =>
      rw [hc] at h
      exact absurd h (by simp)
    | ok s1 =>
      rw [hc] at h
      obtain ⟨-, -, -, -, -, -, -, -, -, -, -, -, -, hpair⟩ :=
        decrypt_ok fhe c.now c.sender s aid c.clear c.proof s1 hc
      rw [ih s1 s' h, hpair]
      rfl

/-- C1 (amended): starting from an auction whose tracker is untouched
(highest bidder 0, highest amount 0), after any sequence of successful
reveals the highest amount equals the maximum of the revealed amounts, and
when that maximum is positive the highest bidder is the bidder of the
earliest reveal achieving it (strict `>` tie-break); when every revealed
amount is 0 the highest bidder remains `address(0)`, not the earliest
revealer. -/
theorem claim_C1 (fhe : Fhe) (aid : String) (calls : List RevealCall)
    (s s' : State)
    (h0b : (s.auctions aid).highestBidder = 0)
    (h0a : (s.auctions aid).highestBidAmount = 0)
    (h : applyReveals fhe aid calls s = .ok s') :
    (s'.auctions aid).highestBidAmount = maxAmt (revealPairs fhe calls) ∧
    (0 < maxAmt (revealPairs fhe calls) →
      firstWith (maxAmt (revealPairs fhe calls)) (revealPairs fhe calls) =
        some (s'.auctions aid).highestBidder) ∧
    (maxAmt (revealPairs fhe calls) = 0 →
      (s'.auctions aid).highestBidder = 0) := by
  have hp := applyReveals_pair fhe aid calls s s' h
  have h0 : hiPair s aid = (0, 0) := by simp [hiPair, h0b, h0a]
  rw [h0] at hp
  refine ⟨?_, ?_, ?_⟩
  · have h2 : (hiPair s' aid).2 = (trackFold (0, 0) (revealPairs fhe calls)).2 := by
      rw [hp]
    rw [trackFold_amount] at h2
    simpa using h2
  · intro hpos
    have := trackFold_first (revealPairs fhe calls) (0, 0) (by simpa using hpos)
    rw [← hp] at this
    exact this
  · intro hzero
    have hc := trackFold_const (revealPairs fhe calls) (0, 0) (by simp [hzero])
    rw [hc] at hp
    have := congrArg Prod.fst hp
    simpa [hiPair] using this

/-- C1 counterexample: a single successful reveal of amount 0 (by bidder 1,
on a fresh auction) leaves highestBidder at address(0); the claim demands
the earliest max-achieving revealer, bidder 1. -/
theorem claim_C1_counterexample :
    okB (applyReveals fheT "A" callsZ sA) = true ∧
    (sC1z.auctions "A").highestBidAmount = maxAmt (revealPairs fheT callsZ) ∧
    firstWith (maxAmt (revealPairs fheT callsZ)) (revealPairs fheT callsZ) =
      some 1 ∧
    (sC1z.auctions "A").highestBidder = 0 ∧ (0 : Nat) ≠ 1 := by
  refine ⟨by decide, by decide, by decide, by decide, by decide⟩

/-- C1 witness: bidder 1 reveals amount 5 on auction "A"; the amended
theorem yields highest amount 5 and highest bidder 1. -/
theorem claim_C1_witness :
    (sC1w.auctions "A").highestBidAmount = 5 ∧
    (sC1w.auctions "A").highestBidder = 1 := by
  have h := claim_C1 fheT "A" callsW sA sC1w (by decide) (by decide) rfl
  refine ⟨?_, ?_⟩
  · rw [h.1]
    decide
  · have h2 := h.2.1 (by decide)
    have e1 : firstWith (maxAmt (revealPairs fheT callsW))
        (revealPairs fheT callsW) = some 1 := by decide
    exact (Option.some.inj (e1.symm.trans h2)).symm

/-- C2 (amended): `decryptBid` performs no bid-existence check.  For an
existing, ended auction and a caller whose bid slot still holds the default
record, the call never fails NotFound: it checks the decryption proof
against the zero ciphertext handle, failing InvalidProof if the proof is
rejected and succeeding (mutating the default record) if it is accepted. -/
theorem claim_C2 (fhe : Fhe) (now sender : Nat) (s : State) (aid : String)
    (clear proof : Nat)
    (hex : auctionExists s aid = true)
    (hend : (s.auctions aid).endTime < now)
    (hnb : (s.auctions aid).bids sender = defaultBid) :
    decryptBid fhe now sender s aid clear proof ≠ .error .NotFound ∧
    (fhe.checkSig 0 clear proof = false →
      decryptBid fhe now sender s aid clear proof = .error .InvalidProof) ∧
    (fhe.checkSig 0 clear proof = true →
      okB (decryptBid fhe now sender s aid clear proof) = true) := by
  cases hc : fhe.checkSig 0 clear proof with
  | false =>
    have herr : decryptBid fhe now sender s aid clear proof = .error .InvalidProof := by
      simp [decryptBid, hex, hend, hnb, defaultBid, hc]
    refine ⟨by rw [herr]; simp, fun _ => herr, fun hcc => by simp [hc] at hcc⟩
  | true =>
    have hok : okB (decryptBid fhe now sender s aid clear proof) = true := by
      simp [decryptBid, hex, hend, hnb, defaultBid, hc, okB]
    refine ⟨?_, fun hcc => by simp [hc] at hcc, fun _ => hok⟩
    intro heq
    rw [heq] at hok
    simp [okB] at hok

/-- C2 counterexample: on the ended auction "A", caller 7 holds no bid (the
default record), yet the reveal succeeds under an accepting verifier and
mutates caller 7's bid record instead of failing NotFound. -/
theorem claim_C2_counterexample :
    (sA.auctions "A").bids 7 = defaultBid ∧
    okB (decryptBid fheT 11 7 sA "A" 5 0) = true ∧
    (((afterOp (decryptBid fheT 11 7 sA "A" 5 0) sA).auctions "A").bids 7).isDecrypted
      = true := by
  refine ⟨by decide, by decide, by decide⟩

/-- C2 witness: the amended theorem applied at auction "A", caller 7: an
accepting verifier makes the reveal succeed, a rejecting one yields
InvalidProof. -/
theorem claim_C2_witness :
    okB (decryptBid fheT 11 7 sA "A" 5 0) = true ∧
    decryptBid fheNo 11 7 sA "A" 5 0 = .error .InvalidProof := by
  refine ⟨?_, ?_⟩
  · exact (claim_C2 fheT 11 7 sA "A" 5 0 (by decide) (by decide)
      (by decide)).2.2 (by decide)
  · exact (claim_C2 fheNo 11 7 sA "A" 5 0 (by decide) (by decide)
      (by decide)).2.1 (by decide)

/-- C3 (amended): for a fresh auction id, creation fails InvalidTimeWindow
exactly when startTime lies strictly in the past or endTime ≤ startTime;
startTime equal to the current time is accepted (the code checks
`startTime >= block.timestamp`). -/
theorem claim_C3 (now : Nat) (s : State) (aid nft : String) (st et : Nat)
    (hfresh : auctionExists s aid = false) :
    (st < now ∨ et ≤ st →
      createAuction now s aid nft st et = .error .InvalidTimeWindow) ∧
    (now ≤ st → st < et → okB (createAuction now s aid nft st et) = true) := by
  constructor
  · intro hbad
    rcases hbad with hbad | hbad
    · simp [createAuction, hfresh, hbad]
    · by_cases h2 : st < now
      · simp [createAuction, hfresh, h2]
      · simp [createAuction, hfresh, h2, hbad]
  · intro h1 h2
    have hn : ¬ st < now := Nat.not_lt.mpr h1
    have he : ¬ et ≤ st := Nat.not_le.mpr h2
    simp [createAuction, hfresh, hn, he, okB]

/-- C3 counterexample: creating with startTime exactly equal to the current
time (now = startTime = 5) succeeds, where the claim demands an
InvalidTimeWindow failure. -/
theorem claim_C3_counterexample :
    okB (createAuction 5 initState "A" "N" 5 10) = true := by
  decide

/-- C3 witness: the amended theorem at now = 5: startTime 3 (in the past)
fails InvalidTimeWindow, and startTime 5 with endTime 10 succeeds. -/
theorem claim_C3_witness :
    createAuction 5 initState "A" "N" 3 10 = .error .InvalidTimeWindow ∧
    okB (createAuction 5 initState "B" "N" 5 10) = true := by
  refine ⟨?_, ?_⟩
  · exact (claim_C3 5 initState "A" "N" 3 10 (by decide)).1 (Or.inl (by decide))
  · exact (claim_C3 5 initState "B" "N" 5 10 (by decide)).2 (by decide) (by decide)

/-- C4 (amended): a successful reveal — including one arriving after
finalization, since `decryptBid` never consults `isActive` — updates the
caller's bid record and applies the usual strict `>` tracker step to
(highestBidder, highestBidAmount): the stored outcome is unchanged exactly
when the revealed amount does not exceed the current highest, but a larger
post-finalization reveal does displace the stored winner. -/
theorem claim_C4 (fhe : Fhe) (now sender : Nat) (s : State) (aid : String)
    (clear proof : Nat) (s' : State)
    (h : decryptBid fhe now sender s aid clear proof = .ok s') :
    (s'.auctions aid).isActive = (s.auctions aid).isActive ∧
    hiPair s' aid = trackStep (hiPair s aid)
      (sender, fhe.decodeU32 clear % 4294967296) ∧
    ((s'.auctions aid).bids sender).isDecrypted = true ∧
    ((s'.auctions aid).bids sender).decryptedBidAmount =
      fhe.decodeU32 clear % 4294967296 ∧
    ((s'.auctions aid).bids sender).encryptedBidAmount =
      ((s.auctions aid).bids sender).encryptedBidAmount ∧
    (∀ b : Nat, b ≠ sender →
      (s'.auctions aid).bids b = (s.auctions aid).bids b) ∧
    (∀ aid2 : String, aid2 ≠ aid → s'.auctions aid2 = s.auctions aid2) := by
  obtain ⟨-, -, -, -, -, hother, -, -, -, hact, -, hbsender, hbother, hpair⟩ :=
    decrypt_ok fhe now sender s aid clear proof s' h
  refine ⟨hact, hpair, ?_, ?_, ?_, hbother, hother⟩ <;> rw [hbsender]

/-- C4 counterexample: auction "F" is finalized with winner 1 at amount 50;
bidder 2 then reveals 80 and the stored highest pair changes to (2, 80),
where the claim demands it stay (1, 50). -/
theorem claim_C4_counterexample :
    (sF.auctions "F").isActive = false ∧
    (sF.auctions "F").highestBidder = 1 ∧
    (sF.auctions "F").highestBidAmount = 50 ∧
    okB (decryptBid fheT 11 2 sF "F" 80 0) = true ∧
    ((afterOp (decryptBid fheT 11 2 sF "F" 80 0) sF).auctions "F").highestBidder
      = 2 ∧
    ((afterOp (decryptBid fheT 11 2 sF "F" 80 0) sF).auctions "F").highestBidAmount
      = 80 := by
  refine ⟨by decide, by decide, by decide, by decide, by decide, by decide⟩

/-- C4 witness: the amended theorem applied to bidder 2's post-finalization
reveal of 80 on the finalized auction "F": the auction stays inactive and
the tracker pair becomes trackStep (1, 50) (2, 80) = (2, 80). -/
theorem claim_C4_witness :
    ((afterOp (decryptBid fheT 11 2 sF "F" 80 0) sF).auctions "F").isActive
      = false ∧
    hiPair (afterOp (decryptBid fheT 11 2 sF "F" 80 0) sF) "F" = (2, 80) := by
  have h := claim_C4 fheT 11 2 sF "F" 80 0
    (afterOp (decryptBid fheT 11 2 sF "F" 80 0) sF) rfl
  refine ⟨?_, ?_⟩
  · rw [h.1]
    decide
  · rw [h.2.1]
    decide

/-- An existing, already-deactivated auction stays existing and
deactivated, with an unchanged endTime, across any single transaction: no
operation revives `isActive` (only `createAuction` sets it, and it reverts
on an existing id) or touches the time window of an existing auction. -/
theorem frozen_step (fhe : Fhe) (op : Op) (s : State) (aid : String)
    (h1 : (s.auctions aid).nftTokenId.length ≠ 0)
    (h2 : (s.auctions aid).isActive = false) :
    ((applyOp fhe s op).auctions aid).nftTokenId = (s.auctions aid).nftTokenId ∧
    ((applyOp fhe s op).auctions aid).isActive = false ∧
    ((applyOp fhe s op).auctions aid).endTime = (s.auctions aid).endTime := by
  cases op with
  | create now2 aid0 nft st et =>
    cases hr : createAuction now2 s aid0 nft st et with
    | error e => simp [applyOp, afterOp, hr, h2]
    | ok s2 =>
      obtain ⟨hne, -, -, hs2⟩ := create_ok now2 s aid0 nft st et s2 hr
      subst hs2
      have haid : aid ≠ aid0 := by
        intro h
        subst h
        simp [auctionExists] at hne
        exact h1 hne
      simp [applyOp, afterOp, hr, setAuction, haid, h2]
  | place now2 sender aid0 ext proof =>
    cases hr : placeBid fhe now2 sender s aid0 ext proof with
    | error e => simp [applyOp, afterOp, hr, h2]
    | ok s2 =>
      obtain ⟨-, -, -, -, -, -, hs2⟩ :=
        place_ok fhe now2 sender s aid0 ext proof s2 hr
      subst hs2
      by_cases haid : aid = aid0
      · subst haid
        simp [applyOp, afterOp, hr, setAuction, setBid, h2]
      · simp [applyOp, afterOp, hr, setAuction, setBid, haid, h2]
  | reveal now2 sender aid0 clear proof =>
    cases hr : decryptBid fhe now2 sender s aid0 clear proof with
    | error e => simp [applyOp, afterOp, hr, h2]
    | ok s2 =>
      obtain ⟨-, -, -, -, -, hother, hnft, -, hend, hact, -, -, -, -⟩ :=
        decrypt_ok fhe now2 sender s aid0 clear proof s2 hr
      by_cases haid : aid = aid0
      · subst haid
        simp only [applyOp, afterOp, hr]
        exact ⟨hnft, by rw [hact]; exact h2, hend⟩
      · have heq := hother aid haid
        simp [applyOp, afterOp, hr, heq, h2]
  | finalize now2 aid0 =>
    cases hr : finalizeAuction now2 s aid0 with
    | error e => simp [applyOp, afterOp, hr, h2]
    | ok s2 =>
      obtain ⟨-, -, -, -, hs2⟩ := finalize_ok now2 s aid0 s2 hr
      subst hs2
      by_cases haid : aid = aid0
      · subst haid
        simp [applyOp, afterOp, hr, setAuction]
      · simp [applyOp, afterOp, hr, setAuction, haid, h2]

/-- `frozen_step` extended to a whole transaction sequence. -/
theorem frozen_exec (fhe : Fhe) (ops : List Op) (aid : String) :
    ∀ s : State,
      (s.auctions aid).nftTokenId.length ≠ 0 →
      (s.auctions aid).isActive = false →
      ((exec fhe s ops).auctions aid).nftTokenId = (s.auctions aid).nftTokenId ∧
      ((exec fhe s ops).auctions aid).isActive = false ∧
      ((exec fhe s ops).auctions aid).endTime = (s.auctions aid).endTime := by
  induction ops with
  | nil => intro s _ h2; exact ⟨rfl, h2, rfl⟩
  | cons op rest ih =>
    intro s h1 h2
    obtain ⟨k1, k2, k3⟩ := frozen_step fhe op s aid h1 h2
    have h1' : ((applyOp fhe s op).auctions aid).nftTokenId.length ≠ 0 := by
      rw [k1]
      exact h1
    obtain ⟨m1, m2, m3⟩ := ih (applyOp fhe s op) h1' k2
    exact ⟨m1.trans k1, m2, m3.trans k3⟩

/-- C6: for an existing auction, `finalizeAuction` fails AuctionNotEnded
while the current time is not strictly past endTime; it fails NoValidBids
when the auction is still active, ended, and no reveal has set a highest
bidder; and once a finalization succeeds, every subsequent finalizeAuction
call on that auction — after any interleaving of further transactions, at
any block time not before the finalizing one — fails AlreadyFinalized. -/
theorem claim_C6 (now : Nat) (s : State) (aid : String)
    (hex : auctionExists s aid = true) :
    (¬ (s.auctions aid).endTime < now →
      finalizeAuction now s aid = .error .AuctionNotEnded) ∧
    ((s.auctions aid).endTime < now → (s.auctions aid).isActive = true →
      (s.auctions aid).highestBidder = 0 →
      finalizeAuction now s aid = .error .NoValidBids) ∧
    (∀ s' : State, finalizeAuction now s aid = .ok s' →
      ∀ fhe : Fhe, ∀ ops : List Op, ∀ now2 : Nat, now ≤ now2 →
        finalizeAuction now2 (exec fhe s' ops) aid = .error .AlreadyFinalized) := by
  refine ⟨?_, ?_, ?_⟩
  · intro hne
    simp [finalizeAuction, hex, hne]
  · intro hend hact hhb
    simp [finalizeAuction, hex, hend, hact, hhb]
  · intro s' h fhe ops now2 hle
    obtain ⟨-, hend, -, -, hs'⟩ := finalize_ok now s aid s' h
    have h1 : (s'.auctions aid).nftTokenId.length ≠ 0 := by
      subst hs'
      rw [setAuction_same]
      simpa [auctionExists] using hex
    have h2 : (s'.auctions aid).isActive = false := by
      subst hs'
      rw [setAuction_same]
    have h3 : (s'.auctions aid).endTime = (s.auctions aid).endTime := by
      subst hs'
      rw [setAuction_same]
    obtain ⟨k1, k2, k3⟩ := frozen_exec fhe ops aid s' h1 h2
    have hex2 : auctionExists (exec fhe s' ops) aid = true := by
      have : ((exec fhe s' ops).auctions aid).nftTokenId.length ≠ 0 := by
        rw [k1]
        exact h1
      simpa [auctionExists] using this
    have hend2 : ((exec fhe s' ops).auctions aid).endTime < now2 := by
      rw [k3, h3]
      exact Nat.lt_of_lt_of_le hend hle
    simp [finalizeAuction, hex2, hend2, k2]

/-- C6 witness: finalizing auction "A" at time 5 fails AuctionNotEnded and
at time 11 fails NoValidBids; auction "R" (ended, bidder 1 revealed 50) is
successfully finalized at time 11, and after an intervening successful
post-finalization reveal by bidder 2 at time 12, a second finalization at
time 12 fails AlreadyFinalized. -/
theorem claim_C6_witness :
    finalizeAuction 5 sA "A" = .error .AuctionNotEnded ∧
    finalizeAuction 11 sA "A" = .error .NoValidBids ∧
    okB (finalizeAuction 11 sR "R") = true ∧
    okB (decryptBid fheT 12 2 (afterOp (finalizeAuction 11 sR "R") sR) "R" 80 0)
      = true ∧
    finalizeAuction 12 (exec fheT (afterOp (finalizeAuction 11 sR "R") sR)
      [Op.reveal 12 2 "R" 80 0]) "R" = .error .AlreadyFinalized := by
  refine ⟨?_, ?_, by decide, by decide, ?_⟩
  · exact (claim_C6 5 sA "A" (by decide)).1 (by decide)
  · exact (claim_C6 11 sA "A" (by decide)).2.1 (by decide) (by decide) (by decide)
  · exact (claim_C6 11 sR "R" (by decide)).2.2
      (afterOp (finalizeAuction 11 sR "R") sR) rfl fheT
      [Op.reveal 12 2 "R" 80 0] 12 (by decide)

/-- C7: a `placeBid` whose caller already holds a stored bid (nonzero
ciphertext handle) in an otherwise valid call fails DuplicateBid, the
reverted call leaves the state untouched, and more generally no `placeBid`
call whatsoever alters the record of a bidder who already stores a bid —
the ciphertext is write-once, never replaced or overwritten. -/
theorem claim_C7 (fhe : Fhe) (now sender : Nat) (s : State) (aid : String)
    (ext proof : Nat)
    (hex : auctionExists s aid = true)
    (hw1 : (s.auctions aid).startTime ≤ now)
    (hw2 : now ≤ (s.auctions aid).endTime)
    (hact : (s.auctions aid).isActive = true)
    (hinit : isInitializedH (fhe.fromExternal ext proof) = true)
    (hdup : ((s.auctions aid).bids sender).encryptedBidAmount ≠ 0) :
    placeBid fhe now sender s aid ext proof = .error .DuplicateBid ∧
    afterOp (placeBid fhe now sender s aid ext proof) s = s ∧
    (∀ fhe2 : Fhe, ∀ now2 sender2 ext2 proof2 b : Nat,
      ((s.auctions aid).bids b).encryptedBidAmount ≠ 0 →
      ((afterOp (placeBid fhe2 now2 sender2 s aid ext2 proof2) s).auctions aid).bids b
        = (s.auctions aid).bids b) := by
  have herr : placeBid fhe now sender s aid ext proof = .error .DuplicateBid := by
    simp [placeBid, hex, hw1, hw2, hact, hinit, hdup]
  refine ⟨herr, by rw [herr]; rfl, ?_⟩
  intro fhe2 now2 sender2 ext2 proof2 b hb
  cases hr : placeBid fhe2 now2 sender2 s aid ext2 proof2 with
  | error e => simp [afterOp, hr]
  | ok s2 =>
    obtain ⟨-, -, -, -, -, hdup2, hs2⟩ :=
      place_ok fhe2 now2 sender2 s aid ext2 proof2 s2 hr
    subst hs2
    have hbne : b ≠ sender2 := by
      intro hbe
      rw [hbe] at hb
      exact hb hdup2
    simp [afterOp, setAuction, setBid, hbne]

/-- C7 witness: on auction "A" at time 5, bidder 1 (who already stores a
bid with handle 9) placing again fails DuplicateBid, leaving the state
unchanged; and bidder 2's fresh placement at time 7 leaves bidder 1's
stored record intact. -/
theorem claim_C7_witness :
    placeBid fheT 5 1 sA "A" 3 0 = .error .DuplicateBid ∧
    afterOp (placeBid fheT 5 1 sA "A" 3 0) sA = sA ∧
    ((afterOp (placeBid fheT 7 2 sA "A" 4 0) sA).auctions "A").bids 1
      = (sA.auctions "A").bids 1 := by
  have h := claim_C7 fheT 5 1 sA "A" 3 0 (by decide) (by decide) (by decide)
    (by decide) (by decide) (by decide)
  exact ⟨h.1, h.2.1, h.2.2 fheT 7 2 4 0 1 (by decide)⟩

/-- C8: on an existing auction, `getBid` never fails whatever the queried
address, and for an address whose bid slot still holds the mapping default
it returns the all-zero record (handle 0, timestamp 0, not decrypted,
amount 0). -/
theorem claim_C8 (s : State) (aid : String) (bidder : Nat)
    (hex : auctionExists s aid = true) :
    okB (getBid s aid bidder) = true ∧
    ((s.auctions aid).bids bidder = defaultBid →
      getBid s aid bidder = .ok (0, 0, false, 0)) := by
  refine ⟨?_, ?_⟩
  · simp [getBid, hex, okB]
  · intro hd
    simp [getBid, hex, hd, defaultBid]

/-- C8 witness: on auction "A", querying the bid of address 5 (which never
bid) succeeds and returns the default record. -/
theorem claim_C8_witness :
    okB (getBid sA "A" 5) = true ∧ getBid sA "A" 5 = .ok (0, 0, false, 0) := by
  have h := claim_C8 sA "A" 5 (by decide)
  exact ⟨h.1, h.2 (by decide)⟩

/-- C10: for an unknown auction id, `getAuctionDetails`, `getBid` and
`getAllBidders` all fail NotFound rather than answering with defaults,
while `getAllAuctionIds` never fails on any state. -/
theorem claim_C10 (s : State) (aid : String) (bidder : Nat)
    (hno : auctionExists s aid = false) :
    getAuctionDetails s aid = .error .NotFound ∧
    getBid s aid bidder = .error .NotFound ∧
    getAllBidders s aid = .error .NotFound ∧
    (∀ s2 : State, okB (getAllAuctionIds s2) = true) := by
  refine ⟨?_, ?_, ?_, ?_⟩
  · simp [getAuctionDetails, hno]
  · simp [getBid, hno]
  · simp [getAllBidders, hno]
  · intro s2
    rfl

/-- C10 witness: the id "Z" is unknown in the state holding only auction
"A": each getter fails NotFound and the id enumeration still succeeds. -/
theorem claim_C10_witness :
    getAuctionDetails sA "Z" = .error .NotFound ∧
    getBid sA "Z" 0 = .error .NotFound ∧
    getAllBidders sA "Z" = .error .NotFound ∧
    okB (getAllAuctionIds sA) = true := by
  have h := claim_C10 sA "Z" 0 (by decide)
  exact ⟨h.1, h.2.1, h.2.2.1, h.2.2.2 sA⟩

/-! The reachable-state invariant `GoodS` and its preservation. -/

theorem goodInit : GoodS initState := by
  intro aid
  refine ⟨fun _ => ⟨rfl, rfl, rfl, fun _ => rfl⟩, List.nodup_nil, fun a => ?_⟩
  simp [initState, defaultAuction, defaultBid]

theorem goodStep (fhe : Fhe) (s : State) (op : Op) (hg : GoodS s) :
    GoodS (applyOp fhe s op) := by
  cases op with
  | create now aid nft st et =>
    cases hr : createAuction now s aid nft st et with
    | error e => simpa [applyOp, afterOp, hr] using hg
    | ok s2 =>
      obtain ⟨hne, -, -, hs2⟩ := create_ok now s aid nft st et s2 hr
      subst hs2
      intro aid2
      simp only [applyOp, afterOp, hr]
      by_cases haid : aid2 = aid
      · subst haid
        refine ⟨fun _ => ?_, ?_, fun a => ?_⟩
        · refine ⟨?_, ?_, ?_, fun a => ?_⟩ <;> simp [setAuction]
        · simp [setAuction]
        · simp [setAuction, defaultBid]
      · have := hg aid2
        simpa [setAuction, haid] using this
  | place now sender aid ext proof =>
    cases hr : placeBid fhe now sender s aid ext proof with
    | error e => simpa [applyOp, afterOp, hr] using hg
    | ok s2 =>
      obtain ⟨hex, -, -, -, henc, hdup, hs2⟩ :=
        place_ok fhe now sender s aid ext proof s2 hr
      subst hs2
      intro aid2
      simp only [applyOp, afterOp, hr]
      by_cases haid : aid2 = aid
      · subst haid
        have hnz : (s.auctions aid2).nftTokenId.length ≠ 0 := by
          simpa [auctionExists] using hex
        have hnot : sender ∉ (s.auctions aid2).bidders := by
          intro hmem
          exact ((hg aid2).2.2 sender).mp hmem hdup
        refine ⟨fun hlen => ?_, ?_, fun a => ?_⟩
        · exfalso
          apply hnz
          simpa [setAuction, setBid] using hlen
        · have hnd : ((s.auctions aid2).bidders ++ [sender]).Nodup := by
            rw [List.nodup_append]
            refine ⟨(hg aid2).2.1, List.nodup_singleton _, ?_⟩
            simpa [List.disjoint_singleton] using hnot
          simpa [setAuction, setBid] using hnd
        · by_cases ha : a = sender
          · subst ha
            simp [setAuction, setBid, henc]
          · have := (hg aid2).2.2 a
            simpa [setAuction, setBid, ha] using this
      · have := hg aid2
        simpa [setAuction, setBid, haid] using this
  | reveal now sender aid clear proof =>
    cases hr : decryptBid fhe now sender s aid clear proof with
    | error e => simpa [applyOp, afterOp, hr] using hg
    | ok s2 =>
      obtain ⟨hex, -, -, -, -, hother, hnft, -, -, -, hbidders, hbsender,
        hbother, -⟩ := decrypt_ok fhe now sender s aid clear proof s2 hr
      intro aid2
      simp only [applyOp, afterOp, hr]
      by_cases haid : aid2 = aid
      · subst haid
        have hnz : (s.auctions aid2).nftTokenId.length ≠ 0 := by
          simpa [auctionExists] using hex
        refine ⟨fun hlen => ?_, ?_, fun a => ?_⟩
        · exfalso
          apply hnz
          rw [← hnft]
          exact hlen
        · rw [hbidders]
          exact (hg aid2).2.1
        · rw [hbidders]
          by_cases ha : a = sender
          · subst ha
            rw [hbsender]
            exact (hg aid2).2.2 a
          · rw [hbother a ha]
            exact (hg aid2).2.2 a
      · rw [hother aid2 haid]
        exact hg aid2
  | finalize now aid =>
    cases hr : finalizeAuction now s aid with
    | error e => simpa [applyOp, afterOp, hr] using hg
    | ok s2 =>
      obtain ⟨hex, -, -, -, hs2⟩ := finalize_ok now s aid s2 hr
      subst hs2
      intro aid2
      simp only [applyOp, afterOp, hr]
      by_cases haid : aid2 = aid
      · subst haid
        have hnz : (s.auctions aid2).nftTokenId.length ≠ 0 := by
          simpa [auctionExists] using hex
        refine ⟨fun hlen => ?_, ?_, fun a => ?_⟩
        · exfalso
          apply hnz
          simpa [setAuction] using hlen
        · simpa [setAuction] using (hg aid2).2.1
        · simpa [setAuction] using (hg aid2).2.2 a
      · have := hg aid2
        simpa [setAuction, haid] using this

theorem execGood (fhe : Fhe) (ops : List Op) :
    ∀ s : State, GoodS s → GoodS (exec fhe s ops) := by
  induction ops with
  | nil => intro s hg; exact hg
  | cons op rest ih =>
    intro s hg
    exact ih (applyOp fhe s op) (goodStep fhe s op hg)

theorem step_mono (fhe : Fhe) (s : State) (op : Op) (aid : String)
    (hg : GoodS s) :
    (s.auctions aid).highestBidAmount ≤
      ((applyOp fhe s op).auctions aid).highestBidAmount ∧
    (((applyOp fhe s op).auctions aid).highestBidder ≠
        (s.auctions aid).highestBidder →
      (s.auctions aid).highestBidAmount <
        ((applyOp fhe s op).auctions aid).highestBidAmount ∧
      isRevealOn op aid = true) := by
  cases op with
  | create now aid0 nft st et =>
    cases hr : createAuction now s aid0 nft st et with
    | error e => simp [applyOp, afterOp, hr]
    | ok s2 =>
      obtain ⟨hne, -, -, hs2⟩ := create_ok now s aid0 nft st et s2 hr
      subst hs2
      simp only [applyOp, afterOp, hr]
      by_cases haid : aid = aid0
      · subst haid
        have hlen : (s.auctions aid).nftTokenId.length = 0 := by
          simpa [auctionExists] using hne
        obtain ⟨-, hb0, ha0, -⟩ := (hg aid).1 hlen
        constructor
        · simp [setAuction, ha0]
        · intro hcontra
          exfalso
          apply hcontra
          simp [setAuction, hb0]
      · constructor
        · simp [setAuction, haid]
        · intro hcontra
          exfalso
          apply hcontra
          simp [setAuction, haid]
  | place now sender aid0 ext proof =>
    cases hr : placeBid fhe now sender s aid0 ext proof with
    | error e => simp [applyOp, afterOp, hr]
    | ok s2 =>
      obtain ⟨-, -, -, -, -, -, hs2⟩ := place_ok fhe now sender s aid0 ext proof s2 hr
      subst hs2
      simp only [applyOp, afterOp, hr]
      constructor
      · by_cases haid : aid = aid0 <;> simp [setAuction, setBid, haid]
      · intro hcontra
        exfalso
        apply hcontra
        by_cases haid : aid = aid0 <;> simp [setAuction, setBid, haid]
  | reveal now sender aid0 clear proof =>
    cases hr : decryptBid fhe now sender s aid0 clear proof with
    | error e => simp [applyOp, afterOp, hr]
    | ok s2 =>
      obtain ⟨-, -, -, -, -, hother, -, -, -, -, -, -, -, hpair⟩ :=
        decrypt_ok fhe now sender s aid0 clear proof s2 hr
      simp only [applyOp, afterOp, hr]
      by_cases haid : aid = aid0
      · subst haid
        have hb := congrArg Prod.fst hpair
        have ha := congrArg Prod.snd hpair
        by_cases hv : (s.auctions aid).highestBidAmount <
            fhe.decodeU32 clear % 4294967296
        · simp [hiPair, trackStep, hv] at hb ha
          constructor
          · rw [ha]
            exact Nat.le_of_lt hv
          · intro _
            exact ⟨by rw [ha]; exact hv, by simp [isRevealOn]⟩
        · simp [hiPair, trackStep, hv] at hb ha
          constructor
          · rw [ha]
          · intro hcontra
            exact absurd hb hcontra
      · have heq := hother aid haid
        constructor
        · rw [heq]
        · intro hcontra
          rw [heq] at hcontra
          exact absurd rfl hcontra
  | finalize now aid0 =>
    cases hr : finalizeAuction now s aid0 with
    | error e => simp [applyOp, afterOp, hr]
    | ok s2 =>
      obtain ⟨-, -, -, -, hs2⟩ := finalize_ok now s aid0 s2 hr
      subst hs2
      simp only [applyOp, afterOp, hr]
      constructor
      · by_cases haid : aid = aid0 <;> simp [setAuction, haid]
      · intro hcontra
        exfalso
        apply hcontra
        by_cases haid : aid = aid0 <;> simp [setAuction, haid]

/-- C5: along any transaction sequence from the fresh contract, one further
operation of any kind never decreases an auction's highestBidAmount, and
whenever highestBidder changes the amount strictly increased and the
operation was a (successfully verified) reveal on that auction — the
(highestBidder, highestBidAmount) pair never regresses. -/
theorem claim_C5 (fhe : Fhe) (ops : List Op) (op : Op) (aid : String) :
    ((exec fhe initState ops).auctions aid).highestBidAmount ≤
      ((applyOp fhe (exec fhe initState ops) op).auctions aid).highestBidAmount ∧
    (((applyOp fhe (exec fhe initState ops) op).auctions aid).highestBidder ≠
        ((exec fhe initState ops).auctions aid).highestBidder →
      ((exec fhe initState ops).auctions aid).highestBidAmount <
        ((applyOp fhe (exec fhe initState ops) op).auctions aid).highestBidAmount ∧
      isRevealOn op aid = true) :=
  step_mono fhe (exec fhe initState ops) op aid
    (execGood fhe ops initState goodInit)

/-- C5 witness: create auction "A", place a bid by bidder 1, then reveal 80
at time 11: the highest bidder changes (0 to 1), and the theorem yields a
strict amount increase caused by a reveal on "A". -/
theorem claim_C5_witness :
    ((exec fheT initState ops0).auctions "A").highestBidAmount <
      ((applyOp fheT (exec fheT initState ops0)
        (Op.reveal 11 1 "A" 80 0)).auctions "A").highestBidAmount ∧
    isRevealOn (Op.reveal 11 1 "A" 80 0) "A" = true :=
  (claim_C5 fheT ops0 (Op.reveal 11 1 "A" 80 0) "A").2 (by decide)

theorem exec_bidders (fhe : Fhe) (ops : List Op) :
    ∀ s : State, GoodS s → ∀ aid : String,
      ((exec fhe s ops).auctions aid).bidders =
        (s.auctions aid).bidders ++ placers fhe s ops aid := by
  induction ops with
  | nil => intro s _ aid; simp [exec, placers]
  | cons op rest ih =>
    intro s hg aid
    have hg2 := goodStep fhe s op hg
    have hrest := ih (applyOp fhe s op) hg2 aid
    have hexec : exec fhe s (op :: rest) = exec fhe (applyOp fhe s op) rest := rfl
    rw [hexec, hrest]
    cases op with
    | create now aid0 nft st et =>
      have hps : placers fhe s (Op.create now aid0 nft st et :: rest) aid =
          placers fhe (applyOp fhe s (Op.create now aid0 nft st et)) rest aid := by
        simp [placers]
      rw [hps]
      congr 1
      cases hr : createAuction now s aid0 nft st et with
      | error e => simp [applyOp, afterOp, hr]
      | ok s2 =>
        obtain ⟨hne, -, -, hs2⟩ := create_ok now s aid0 nft st et s2 hr
        subst hs2
        by_cases haid : aid = aid0
        · subst haid
          have hlen : (s.auctions aid).nftTokenId.length = 0 := by
            simpa [auctionExists] using hne
          obtain ⟨hbl, -, -, -⟩ := (hg aid).1 hlen
          simp [applyOp, afterOp, hr, setAuction, hbl]
        · simp [applyOp, afterOp, hr, setAuction, haid]
    | place now sender aid0 ext proof =>
      have hps : placers fhe s (Op.place now sender aid0 ext proof :: rest) aid =
          (if aid0 = aid ∧ okB (placeBid fhe now sender s aid0 ext proof) = true
            then [sender] else []) ++
          placers fhe (applyOp fhe s (Op.place now sender aid0 ext proof)) rest aid := by
        simp [placers]
      rw [hps, ← List.append_assoc]
      congr 1
      cases hr : placeBid fhe now sender s aid0 ext proof with
      | error e => simp [applyOp, afterOp, hr, okB]
      | ok s2 =>
        obtain ⟨-, -, -, -, -, -, hs2⟩ :=
          place_ok fhe now sender s aid0 ext proof s2 hr
        subst hs2
        by_cases haid : aid0 = aid
        · subst haid
          simp [applyOp, afterOp, hr, okB, setAuction, setBid]
        · have haid' : aid ≠ aid0 := fun h => haid h.symm
          simp [applyOp, afterOp, hr, okB, setAuction, setBid, haid, haid']
    | reveal now sender aid0 clear proof =>
      have hps : placers fhe s (Op.reveal now sender aid0 clear proof :: rest) aid =
          placers fhe (applyOp fhe s (Op.reveal now sender aid0 clear proof)) rest aid := by
        simp [placers]
      rw [hps]
      congr 1
      cases hr : decryptBid fhe now sender s aid0 clear proof with
      | error e => simp [applyOp, afterOp, hr]
      | ok s2 =>
        obtain ⟨-, -, -, -, -, hother, -, -, -, -, hbidders, -, -, -⟩ :=
          decrypt_ok fhe now sender s aid0 clear proof s2 hr
        by_cases haid : aid = aid0
        · subst haid
          simpa [applyOp, afterOp, hr] using hbidders
        · have := hother aid haid
          simp [applyOp, afterOp, hr, this]
    | finalize now aid0 =>
      have hps : placers fhe s (Op.finalize now aid0 :: rest) aid =
          placers fhe (applyOp fhe s (Op.finalize now aid0)) rest aid := by
        simp [placers]
      rw [hps]
      congr 1
      cases hr : finalizeAuction now s aid0 with
      | error e => simp [applyOp, afterOp, hr]
      | ok s2 =>
        obtain ⟨-, -, -, -, hs2⟩ := finalize_ok now s aid0 s2 hr
        subst hs2
        by_cases haid : aid = aid0
        · subst haid
          simp [applyOp, afterOp, hr, setAuction]
        · simp [applyOp, afterOp, hr, setAuction, haid]

/-- C9: after any transaction sequence from the fresh contract, each
auction's bidders list is exactly the sequence of callers of the successful
placeBid transactions on it, in placement order; the list has no
duplicates; and an address is on the list iff its bid slot holds a nonzero
ciphertext handle — i.e. iff it has a stored bid. -/
theorem claim_C9 (fhe : Fhe) (ops : List Op) (aid : String) (a : Nat) :
    ((exec fhe initState ops).auctions aid).bidders =
      placers fhe initState ops aid ∧
    ((exec fhe initState ops).auctions aid).bidders.Nodup ∧
    (a ∈ ((exec fhe initState ops).auctions aid).bidders ↔
      (((exec fhe initState ops).auctions aid).bids a).encryptedBidAmount ≠ 0) := by
  have hg := execGood fhe ops initState goodInit
  refine ⟨?_, (hg aid).2.1, (hg aid).2.2 a⟩
  have h := exec_bidders fhe ops initState goodInit aid
  simpa [initState, defaultAuction] using h

end ArtAuction
